import Mathlib

/-!
A shallow embedding of `src/run_specgram.py` from the Live-Specgram
repository: a real-time audio spectrogram viewer.

Conventions of the embedding:

* A 2D numpy array indexed `[row, col]` is represented as a `List` of its
  COLUMNS, each column a `List` of entries, one per frequency row.  Under
  this representation `np.hstack((a, b))` along the time axis is list
  append `a ++ b`, the column slice `a[:, k:]` is `List.drop k a`, and the
  column count `a.shape[1]` is `List.length a`.
* Audio acquisition (`get_sample` / `mic_read`) is I/O; functions that
  consume a captured frame take the resulting spectrogram frame as an
  argument.
* `matplotlib.mlab.specgram` is a library call whose code is not part of
  the repository; its shape behaviour is modelled from the spec (see
  `segments`, `magColumn`, `get_specgram`).
-/

namespace Specgram

/-- Number of mic reads concatenated within a single window
(`SAMPLES_PER_FRAME = 2` in the source). -/
def SAMPLES_PER_FRAME : ℕ := 2

/-- FFT length for the spectrogram (`N_FFT = 1_024` in the source). -/
def N_FFT : ℕ := 1024

/-- Overlap between FFT segments (`OVERLAP = 1_000` in the source). -/
def OVERLAP : ℕ := 1000

/-- Modelled from the spec: `RATE` is defined in `mic_read.py`, which is
not under `src/`; the spec fixes the sample rate at 44100 Hz. -/
def RATE : ℕ := 44100

/-- Stride between consecutive FFT segments: `NFFT - OVERLAP`, the spec's
"hop". -/
def hop : ℕ := N_FFT - OVERLAP

theorem hop_val : hop = 24 := rfl

theorem N_FFT_val : N_FFT = 1024 := rfl

/-- Output of `get_specgram` (`specgram` returns the triple
`(arr_2d, freqs, times)`): the magnitude columns, the frequency axis and
the time axis.  The element type of the magnitude array is kept generic:
the buffer-update code moves columns around without looking at entries. -/
structure SpecFrame (α : Type) where
  mag : List (List α)
  freqs : List ℚ
  times : List ℚ
  deriving DecidableEq

/-- Embedding of `update_fig`'s buffer update (`src/run_specgram.py`
lines 56-82) on the image data array.  The first parameter is the
iteration counter handed in by `FuncAnimation`; exactly as in the source,
it is immediately shadowed by `frame = im_data.shape[1] // len(times)`,
re-derived from the buffer's own width.  The branches are the source's
`np.hstack((im_data, arr_2d))` and
`np.hstack((im_data[:, len(times):], arr_2d))`. -/
def update_fig {α : Type} (frame : ℕ) (im_data : List (List α))
    (fr : SpecFrame α) : List (List α) :=
  let frame := im_data.length / fr.times.length
  if frame < SAMPLES_PER_FRAME then
    im_data ++ fr.mag
  else
    im_data.drop fr.times.length ++ fr.mag

/-- Iterating `update_fig` over a sequence of captured frames, one push
per animation cycle.  The counter is irrelevant (see
`update_fig_counter_irrelevant`), so it is passed as `0`. -/
def pushSeq {α : Type} (img : List (List α)) (frames : List (SpecFrame α)) :
    List (List α) :=
  frames.foldl (fun d f => update_fig 0 d f) img

/-- Helper: the right-end slice of an append whose right part has the
sliced length is that right part. -/
theorem rtake_append_right {α : Type} (l m : List α) :
    (l ++ m).rtake m.length = m := by
  simp [List.rtake, List.length_append, List.drop_left]

/-- Helper: both branches of `update_fig` append the frame's columns at
the right edge, so the rightmost `newCols` columns are the frame. -/
theorem update_fig_rtake {α : Type} (counter : ℕ) (img : List (List α))
    (fr : SpecFrame α) :
    (update_fig counter img fr).rtake fr.mag.length = fr.mag := by
  by_cases h : img.length / fr.times.length < SAMPLES_PER_FRAME <;>
    simp [update_fig, h, rtake_append_right]

/-- C3: for every push, in both the fill-up branch and the scroll branch,
the rightmost `newCols` columns of the resulting image are exactly the
pushed frame's magnitude columns. -/
theorem push_keeps_latest {α : Type} (counter : ℕ) (img : List (List α))
    (fr : SpecFrame α) :
    (update_fig counter img fr).rtake fr.mag.length = fr.mag :=
  update_fig_rtake counter img fr

/-- Helper: the column count of `update_fig`'s result, branch by branch. -/
theorem update_fig_length {α : Type} (counter : ℕ) (img : List (List α))
    (fr : SpecFrame α) :
    (update_fig counter img fr).length =
      if img.length / fr.times.length < SAMPLES_PER_FRAME
      then img.length + fr.mag.length
      else img.length - fr.times.length + fr.mag.length := by
  by_cases h : img.length / fr.times.length < SAMPLES_PER_FRAME <;>
    simp [update_fig, h]

/-- Helper: a single push moves the column count from `min (m·n) (2·n)` to
`min ((m+1)·n) (2·n)` when the frame holds `n` columns. -/
theorem update_fig_length_min {α : Type} (n m : ℕ) (hn : 0 < n)
    (img : List (List α)) (f : SpecFrame α)
    (hft : f.times.length = n) (hfm : f.mag.length = n)
    (himg : img.length = min (m * n) (SAMPLES_PER_FRAME * n)) :
    (update_fig 0 img f).length =
      min ((m + 1) * n) (SAMPLES_PER_FRAME * n) := by
  have hlen := update_fig_length 0 img f
  rw [hft, hfm] at hlen
  simp only [SAMPLES_PER_FRAME] at himg hlen ⊢
  match m with
  | 0 =>
    have h0 : img.length = 0 := by omega
    have hdiv : img.length / n = 0 := by rw [h0, Nat.zero_div]
    rw [hlen, if_pos (by omega)]
    omega
  | 1 =>
    have h1 : img.length = n := by omega
    have hdiv : img.length / n = 1 := by rw [h1, Nat.div_self hn]
    rw [hlen, if_pos (by omega)]
    omega
  | (k + 2) =>
    have hk : 2 * n ≤ (k + 2) * n := Nat.mul_le_mul_right n (by omega)
    have h2 : img.length = 2 * n := by omega
    have hdiv : img.length / n = 2 := by
      rw [h2, Nat.mul_div_assoc 2 (dvd_refl n), Nat.div_self hn, mul_one]
    rw [hlen, if_neg (by omega)]
    have hk3 : 2 * n ≤ (k + 2 + 1) * n := Nat.mul_le_mul_right n (by omega)
    omega

/-- Helper: the column count after a sequence of equal-width pushes,
starting from any reachable column count. -/
theorem pushSeq_length_min {α : Type} (n : ℕ) (hn : 0 < n) :
    ∀ (frames : List (SpecFrame α)) (img : List (List α)) (m : ℕ),
      (∀ f ∈ frames, f.times.length = n ∧ f.mag.length = n) →
      img.length = min (m * n) (SAMPLES_PER_FRAME * n) →
      (pushSeq img frames).length =
        min ((m + frames.length) * n) (SAMPLES_PER_FRAME * n) := by
  intro frames
  induction frames with
  | nil =>
    intro img m hf himg
    simpa [pushSeq] using himg
  | cons f fs ih =>
    intro img m hf himg
    obtain ⟨hft, hfm⟩ := hf f (by simp)
    have hfs : ∀ g ∈ fs, g.times.length = n ∧ g.mag.length = n :=
      fun g hg => hf g (by simp [hg])
    have hstep := update_fig_length_min n m hn img f hft hfm himg
    have htail := ih (update_fig 0 img f) (m + 1) hfs hstep
    simp only [pushSeq, List.foldl_cons] at htail ⊢
    rw [htail, List.length_cons]
    ring_nf

/-- C1: starting from the empty image, after `k` pushes of frames each
holding `newCols` columns, the buffer's column count is `k × newCols`
whenever `k ≤ SAMPLES_PER_FRAME`, and stays exactly
`SAMPLES_PER_FRAME × newCols` for every `k > SAMPLES_PER_FRAME`. -/
theorem scrolling_fill_then_clamp {α : Type} (n : ℕ) (hn : 0 < n)
    (frames : List (SpecFrame α))
    (hf : ∀ f ∈ frames, f.times.length = n ∧ f.mag.length = n) :
    (frames.length ≤ SAMPLES_PER_FRAME →
      (pushSeq ([] : List (List α)) frames).length = frames.length * n) ∧
    (SAMPLES_PER_FRAME < frames.length →
      (pushSeq ([] : List (List α)) frames).length =
        SAMPLES_PER_FRAME * n) := by
  have h := pushSeq_length_min n hn frames [] 0 hf (by simp)
  rw [Nat.zero_add] at h
  constructor
  · intro hk
    rw [h, min_eq_left (Nat.mul_le_mul_right n hk)]
  · intro hk
    rw [h, min_eq_right (Nat.mul_le_mul_right n (le_of_lt hk))]

/-- Concrete one-column frame used by witnesses. -/
def oneColFrame : SpecFrame ℕ :=
  { mag := [[5]], freqs := [0], times := [0] }

/-- Witness for C1: three one-column pushes from empty leave the buffer
clamped at `SAMPLES_PER_FRAME × 1` columns. -/
theorem scrolling_fill_then_clamp_witness :
    0 < 1 ∧
    (pushSeq ([] : List (List ℕ))
        [oneColFrame, oneColFrame, oneColFrame]).length =
      SAMPLES_PER_FRAME * 1 :=
  ⟨by decide,
    (scrolling_fill_then_clamp 1 (by decide)
        [oneColFrame, oneColFrame, oneColFrame] (by decide)).2 (by decide)⟩

/-- C2: at or above capacity (`framesHeld ≥ SAMPLES_PER_FRAME`), a push
slices off the oldest `newCols` columns, moving every surviving old
column `j ≥ newCols` to position `j - newCols`, appends the new frame's
columns at the right edge, and leaves the total column count unchanged. -/
theorem scroll_branch_spec {α : Type} (counter : ℕ) (img : List (List α))
    (fr : SpecFrame α) (hn : 0 < fr.times.length)
    (hmag : fr.mag.length = fr.times.length)
    (hfull : SAMPLES_PER_FRAME ≤ img.length / fr.times.length) :
    update_fig counter img fr = img.drop fr.times.length ++ fr.mag ∧
    (update_fig counter img fr).length = img.length ∧
    (∀ j, fr.times.length ≤ j → j < img.length →
      (update_fig counter img fr)[j - fr.times.length]? = img[j]?) ∧
    (update_fig counter img fr).rtake fr.mag.length = fr.mag := by
  have hcap : SAMPLES_PER_FRAME * fr.times.length ≤ img.length :=
    (Nat.le_div_iff_mul_le hn).1 hfull
  have hcond : ¬ img.length / fr.times.length < SAMPLES_PER_FRAME :=
    not_lt.2 hfull
  have heq : update_fig counter img fr = img.drop fr.times.length ++ fr.mag := by
    simp [update_fig, hcond]
  have hn_le : fr.times.length ≤ img.length := by
    simp only [SAMPLES_PER_FRAME] at hcap; omega
  refine ⟨heq, ?_, ?_, update_fig_rtake counter img fr⟩
  · rw [heq]
    simp only [List.length_append, List.length_drop, hmag]
    omega
  · intro j hj hjlt
    rw [heq]
    have hidx : j - fr.times.length < (img.drop fr.times.length).length := by
      simp only [List.length_drop]; omega
    rw [List.getElem?_append, if_pos hidx, List.getElem?_drop,
      Nat.add_sub_cancel' hj]

/-- Concrete two-column image used by the C2 witness. -/
def twoColImg : List (List ℕ) := [[1], [2]]

/-- Witness for C2: pushing a one-column frame into a full two-column
buffer drops the oldest column, shifts the survivor left and appends the
new column, keeping the width at two. -/
theorem scroll_branch_spec_witness :
    0 < oneColFrame.times.length ∧
    oneColFrame.mag.length = oneColFrame.times.length ∧
    SAMPLES_PER_FRAME ≤ twoColImg.length / oneColFrame.times.length ∧
    update_fig 0 twoColImg oneColFrame =
      twoColImg.drop oneColFrame.times.length ++ oneColFrame.mag ∧
    (update_fig 0 twoColImg oneColFrame).length = twoColImg.length ∧
    (update_fig 0 twoColImg oneColFrame)[1 - oneColFrame.times.length]? =
      twoColImg[1]? ∧
    (update_fig 0 twoColImg oneColFrame).rtake oneColFrame.mag.length =
      oneColFrame.mag := by
  have h := scroll_branch_spec 0 twoColImg oneColFrame
    (by decide) (by decide) (by decide)
  exact ⟨by decide, by decide, by decide, h.1, h.2.1,
    h.2.2.1 1 (by decide) (by decide), h.2.2.2⟩

/-- All columns of an image have height `r` (the image has `r` rows). -/
def HasRowCount {α : Type} (r : ℕ) (img : List (List α)) : Prop :=
  ∀ col ∈ img, col.length = r

instance {α : Type} (r : ℕ) (img : List (List α)) :
    Decidable (HasRowCount r img) :=
  List.decidableBAll _ img

/-- Helper: a single push preserves the row count when the pushed frame
has it. -/
theorem update_fig_rowCount {α : Type} (counter r : ℕ)
    (img : List (List α)) (fr : SpecFrame α)
    (himg : HasRowCount r img) (hfr : HasRowCount r fr.mag) :
    HasRowCount r (update_fig counter img fr) := by
  intro col hcol
  by_cases h : img.length / fr.times.length < SAMPLES_PER_FRAME <;>
    simp only [update_fig, h, if_pos, if_neg, not_false_iff,
      List.mem_append] at hcol
  · rcases hcol with hcol | hcol
    · exact himg col hcol
    · exact hfr col hcol
  · rcases hcol with hcol | hcol
    · exact himg col (List.drop_subset _ _ hcol)
    · exact hfr col hcol

/-- C7: the row count is invariant: if the image's columns all have
height `r` and every pushed frame's columns do too, then after any
sequence of pushes every column still has height `r`. -/
theorem row_count_invariant {α : Type} (r : ℕ)
    (frames : List (SpecFrame α)) (img : List (List α))
    (himg : HasRowCount r img)
    (hfr : ∀ f ∈ frames, HasRowCount r f.mag) :
    HasRowCount r (pushSeq img frames) := by
  induction frames generalizing img with
  | nil => simpa [pushSeq] using himg
  | cons f fs ih =>
    simp only [pushSeq, List.foldl_cons]
    exact ih (update_fig 0 img f)
      (update_fig_rowCount 0 r img f himg (hfr f (by simp)))
      (fun g hg => hfr g (by simp [hg]))

/-- Witness for C7: pushing a frame of height-1 columns into the empty
image yields an image whose columns all have height 1. -/
theorem row_count_invariant_witness :
    HasRowCount 1 ([] : List (List ℕ)) ∧
    HasRowCount 1 (pushSeq ([] : List (List ℕ)) [oneColFrame]) :=
  ⟨by decide,
    row_count_invariant 1 [oneColFrame] [] (by decide) (by decide)⟩

/-- C5: the result of a push does not depend on the externally supplied
iteration counter: the frames-held count is re-derived from the buffer's
own width, so any two counter values give identical buffer contents. -/
theorem update_fig_counter_irrelevant {α : Type} (c₁ c₂ : ℕ)
    (img : List (List α)) (fr : SpecFrame α) :
    update_fig c₁ img fr = update_fig c₂ img fr := rfl

/-- Embedding of the matplotlib `AxesImage` as the source configures it in
`make_plot`: the data array (as columns) plus the display attributes set
at creation (`extent`, colormap, the `LogNorm(vmin=.01, vmax=1)` bounds,
interpolation and aspect). -/
structure AxesImage (α : Type) where
  imgData : List (List α)
  extent : ℚ × ℚ × ℚ × ℚ
  cmap : String
  normVmin : ℚ
  normVmax : ℚ
  interp : String
  aspect : String
  deriving DecidableEq

/-- Embedding of the figure state `make_plot` sets up around the image:
axis labels, title and the y-axis inversion. -/
structure PlotState (α : Type) where
  im : AxesImage α
  xlabel : String
  ylabel : String
  title : String
  yInverted : Bool
  deriving DecidableEq

/-- Embedding of `make_plot` (`src/run_specgram.py` lines 85-110) given
the first captured frame (the source obtains it via
`get_sample`/`get_specgram` before creating the plot).  The image is
created by `ax.imshow(arr_2d, ...)`, so its data array starts as the
first frame's magnitude columns; `extent` is
`(times[0], times[-1]*SAMPLES_PER_FRAME, freqs[-1], freqs[0])` (head and
last default to `0` for an empty axis, which does not occur in the
program). -/
def make_plot {α : Type} (fr : SpecFrame α) : PlotState α :=
  { im :=
      { imgData := fr.mag
      , extent :=
          (fr.times.headD 0, fr.times.getLastD 0 * (SAMPLES_PER_FRAME : ℚ),
            fr.freqs.getLastD 0, fr.freqs.headD 0)
      , cmap := "jet"
      , normVmin := 1 / 100
      , normVmax := 1
      , interp := "none"
      , aspect := "auto" }
  , xlabel := "Time (s)"
  , ylabel := "Frequency (Hz)"
  , title := "Real-Time Spectogram"
  , yInverted := true }

/-- Concrete first frame (one column of two rows) used to refute C4. -/
def probeFrame : SpecFrame ℕ :=
  { mag := [[3, 4]], freqs := [0, 1], times := [0] }

/-- Counterexample to C4: the display buffer that exists before the first
`update_fig` call is the one `make_plot` created, and for a concrete
first frame with one column it has one column, not zero: the program
never exhibits an empty (zero-column) display image. -/
theorem make_plot_initial_not_empty :
    ¬ (make_plot probeFrame).im.imgData.length = 0 := by decide

/-- C4 as amended: before the first push (`update_fig` call), the display
image is not empty; `make_plot` seeds it with the first captured frame's
magnitude columns, so it starts with that frame's column count. -/
theorem make_plot_initial_state {α : Type} (fr : SpecFrame α) :
    (make_plot fr).im.imgData = fr.mag ∧
    (make_plot fr).im.imgData.length = fr.mag.length :=
  ⟨rfl, rfl⟩

/-- Embedding of the whole of `update_fig` as it acts on the plot state:
it reads `im.get_array()`, computes the new data array, stores it with
`im.set_array(...)` and returns the one-element tuple `(im,)`, touching
nothing else on the figure. -/
def update_fig_on_plot {α : Type} (counter : ℕ) (st : PlotState α)
    (fr : SpecFrame α) : PlotState α × AxesImage α :=
  let im_data := st.im.imgData
  let newData := update_fig counter im_data fr
  let im2 := { st.im with imgData := newData }
  ({ st with im := im2 }, im2)

/-- C10: every update mutates only the image's data array and returns the
very same image it was passed (in post-state); extent, colormap, norm
bounds, interpolation, aspect, labels, title and the y-axis inversion are
all left unchanged. -/
theorem update_fig_frame_effect {α : Type} (counter : ℕ)
    (st : PlotState α) (fr : SpecFrame α) :
    (update_fig_on_plot counter st fr).2 =
      (update_fig_on_plot counter st fr).1.im ∧
    (update_fig_on_plot counter st fr).1.im.imgData =
      update_fig counter st.im.imgData fr ∧
    (update_fig_on_plot counter st fr).1.im.extent = st.im.extent ∧
    (update_fig_on_plot counter st fr).1.im.cmap = st.im.cmap ∧
    (update_fig_on_plot counter st fr).1.im.normVmin = st.im.normVmin ∧
    (update_fig_on_plot counter st fr).1.im.normVmax = st.im.normVmax ∧
    (update_fig_on_plot counter st fr).1.im.interp = st.im.interp ∧
    (update_fig_on_plot counter st fr).1.im.aspect = st.im.aspect ∧
    (update_fig_on_plot counter st fr).1.xlabel = st.xlabel ∧
    (update_fig_on_plot counter st fr).1.ylabel = st.ylabel ∧
    (update_fig_on_plot counter st fr).1.title = st.title ∧
    (update_fig_on_plot counter st fr).1.yInverted = st.yInverted :=
  ⟨rfl, rfl, rfl, rfl, rfl, rfl, rfl, rfl, rfl, rfl, rfl, rfl⟩

/-- Modelled from the spec: `matplotlib.mlab.specgram` (called by
`get_specgram`) is library code absent from `src/`.  Per the spec it
segments the signal into overlapping windows of length `NFFT` with
stride `NFFT - OVERLAP`, one FFT column per segment, ignoring a final
partial segment.  This function produces exactly those segments. -/
def segments (signal : List ℤ) : List (List ℤ) :=
  if signal.length < N_FFT then []
  else signal.take N_FFT :: segments (signal.drop hop)
termination_by signal.length
decreasing_by
  simp only [List.length_drop, hop_val]
  simp only [N_FFT] at *
  omega

/-- Helper: a signal shorter than `NFFT` yields no segments. -/
theorem segments_eq_nil (signal : List ℤ) (h : signal.length < N_FFT) :
    segments signal = [] := by
  rw [segments, if_pos h]

/-- Helper: the number of segments of a signal of length at least `NFFT`
is `1 + (len - NFFT) / hop`. -/
theorem segments_length (signal : List ℤ) :
    N_FFT ≤ signal.length →
    (segments signal).length = 1 + (signal.length - N_FFT) / hop := by
  induction signal using segments.induct with
  | case1 signal h =>
    intro hge
    exact absurd hge (not_le.2 h)
  | case2 signal h ih =>
    intro _
    rw [segments, if_neg h, List.length_cons]
    have h1 : 1024 ≤ signal.length := by
      have h' := not_lt.1 h
      rwa [N_FFT_val] at h'
    have ha : (signal.drop hop).length = signal.length - 24 := by
      rw [List.length_drop, hop_val]
    by_cases h2 : N_FFT ≤ (signal.drop hop).length
    · rw [ih h2]
      rw [ha, N_FFT_val] at h2
      rw [ha, N_FFT_val, hop_val]
      omega
    · rw [segments_eq_nil _ (not_le.1 h2)]
      rw [ha, N_FFT_val] at h2
      rw [N_FFT_val, hop_val]
      simp only [List.length_nil]
      omega

/-- Modelled from the spec: one spectrogram column per segment, one entry
per frequency bin `0 .. NFFT/2`.  The floating-point magnitude of the
windowed FFT is outside the embedding; each entry is represented by the
data that determines it, the pair of the segment and the bin index. -/
def magColumn (seg : List ℤ) : List (List ℤ × ℕ) :=
  (List.range (N_FFT / 2 + 1)).map (fun k => (seg, k))

/-- Failure mode of the transform (spec error taxonomy). -/
inductive TransformError where
  | insufficientSamples
  deriving DecidableEq

/-- Modelled from the spec: `get_specgram` delegates to
`matplotlib.mlab.specgram`, absent from `src/`.  Per the spec the
transform fails with `InsufficientSamples` when the signal is shorter
than `NFFT`, and otherwise returns one magnitude column per segment with
`NFFT/2 + 1` frequency bins, a frequency axis from `0` to `RATE/2` and a
time axis of one entry per segment (segment centres over `RATE`). -/
def get_specgram (signal : List ℤ) :
    Except TransformError (SpecFrame (List ℤ × ℕ)) :=
  if signal.length < N_FFT then
    Except.error TransformError.insufficientSamples
  else
    Except.ok
      { mag := (segments signal).map magColumn
      , freqs :=
          (List.range (N_FFT / 2 + 1)).map
            (fun k => (k : ℚ) * RATE / N_FFT)
      , times :=
          (List.range (segments signal).length).map
            (fun i => ((i * hop + N_FFT / 2 : ℕ) : ℚ) / RATE) }

/-- C6: for every signal of length at least `NFFT`, the transform
succeeds with a magnitude array of exactly
`1 + (len - NFFT) / (NFFT - OVERLAP)` columns, each of exactly
`NFFT/2 + 1` rows. -/
theorem get_specgram_shape (signal : List ℤ)
    (h : N_FFT ≤ signal.length) :
    ∃ fr, get_specgram signal = Except.ok fr ∧
      fr.mag.length = 1 + (signal.length - N_FFT) / (N_FFT - OVERLAP) ∧
      ∀ col ∈ fr.mag, col.length = N_FFT / 2 + 1 := by
  refine
    ⟨{ mag := (segments signal).map magColumn
     , freqs :=
         (List.range (N_FFT / 2 + 1)).map
           (fun k => (k : ℚ) * RATE / N_FFT)
     , times :=
         (List.range (segments signal).length).map
           (fun i => ((i * hop + N_FFT / 2 : ℕ) : ℚ) / RATE) },
      ?_, ?_, ?_⟩
  · rw [get_specgram, if_neg (not_lt.2 h)]
  · simp only [List.length_map]
    exact segments_length signal h
  · intro col hcol
    simp only [List.mem_map] at hcol
    obtain ⟨seg, _, rfl⟩ := hcol
    simp [magColumn]

/-- Witness for C6: a constant signal of length exactly `NFFT` is
transformed into a single column of `NFFT/2 + 1` rows. -/
theorem get_specgram_shape_witness :
    N_FFT ≤ (List.replicate 1024 (0 : ℤ)).length ∧
    ∃ fr, get_specgram (List.replicate 1024 (0 : ℤ)) = Except.ok fr ∧
      fr.mag.length =
        1 + ((List.replicate 1024 (0 : ℤ)).length - N_FFT) /
          (N_FFT - OVERLAP) ∧
      ∀ col ∈ fr.mag, col.length = N_FFT / 2 + 1 :=
  ⟨by rw [List.length_replicate]; decide,
    get_specgram_shape (List.replicate 1024 (0 : ℤ))
      (by rw [List.length_replicate]; decide)⟩

/-- C8: the transform fails with `InsufficientSamples` exactly when the
signal is shorter than `NFFT`, and succeeds exactly when the signal
length is at least `NFFT`. -/
theorem get_specgram_insufficient (signal : List ℤ) :
    (get_specgram signal =
        Except.error TransformError.insufficientSamples ↔
      signal.length < N_FFT) ∧
    ((∃ fr, get_specgram signal = Except.ok fr) ↔
      N_FFT ≤ signal.length) := by
  by_cases h : signal.length < N_FFT
  · rw [get_specgram, if_pos h]
    constructor
    · exact ⟨fun _ => h, fun _ => rfl⟩
    · constructor
      · rintro ⟨fr, hfr⟩
        exact absurd hfr (by simp)
      · intro hge
        exact absurd hge (not_le.2 h)
  · rw [get_specgram, if_neg h]
    constructor
    · constructor
      · intro hbad
        exact absurd hbad (by simp)
      · intro hlt
        exact absurd hlt h
    · exact ⟨fun _ => not_lt.1 h, fun _ => ⟨_, rfl⟩⟩

/-- Audio-resource events performed by `main`:
`open_mic()`, `stream.stop_stream()`, `stream.close()`,
`pa.terminate()`. -/
inductive AudioEv where
  | openMic
  | stopStream
  | closeStream
  | terminateAudio
  deriving DecidableEq

/-- Startup failure of `open_mic` (the spec's `DeviceUnavailable`). -/
inductive DeviceErr where
  | deviceUnavailable
  deriving DecidableEq

/-- Observable behaviour of a modelled effectful computation: the ordered
trace of audio-resource events it performed, and its outcome (normal
return, or a raised exception that propagates). -/
structure RunResult (ε : Type) (α : Type) where
  trace : List AudioEv
  outcome : Except ε α

/-- Embedding of Python `try: body finally: fin` where the `finally`
block only performs events and cannot itself raise: the cleanup events
run after the body on every outcome, and the body's outcome (normal or
exceptional) is what the whole statement produces. -/
def tryFinally {ε α : Type} (body : RunResult ε α) (fin : List AudioEv) :
    RunResult ε α :=
  { trace := body.trace ++ fin, outcome := body.outcome }

/-- Events of `main`'s `finally` block, in source order. -/
def mainFinally : List AudioEv :=
  [AudioEv.stopStream, AudioEv.closeStream, AudioEv.terminateAudio]

/-- Embedding of `main` (`src/run_specgram.py` lines 113-123):
`open_mic()` first (if it raises, nothing was acquired and the error
propagates with no cleanup to do), then
`try: make_plot(stream); plt.show() finally: stop/close/terminate`.
The body of the `try` block is an arbitrary behaviour `body`, covering
both normal completion of the display loop and any raised error. -/
def mainRun {ε : Type} (openOutcome : Except DeviceErr Unit)
    (body : RunResult ε Unit) : RunResult (DeviceErr ⊕ ε) Unit :=
  match openOutcome with
  | Except.error e => { trace := [], outcome := Except.error (Sum.inl e) }
  | Except.ok _ =>
    let r := tryFinally body mainFinally
    { trace := AudioEv.openMic :: r.trace
    , outcome := r.outcome.mapError Sum.inr }

/-- C9: whenever the device was opened, every exit path of `main` —
normal completion of the display loop as well as any raised error —
stops and closes the stream and terminates the audio subsystem before
the process exits: the trace ends with the cleanup events and the body's
outcome is preserved. -/
theorem main_releases_audio {ε : Type}
    (openOutcome : Except DeviceErr Unit) (body : RunResult ε Unit)
    (h : openOutcome = Except.ok ()) :
    (mainRun openOutcome body).trace =
      AudioEv.openMic :: body.trace ++ mainFinally ∧
    mainFinally <:+ (mainRun openOutcome body).trace ∧
    (mainRun openOutcome body).outcome = body.outcome.mapError Sum.inr := by
  subst h
  refine ⟨rfl, ?_, rfl⟩
  exact ⟨AudioEv.openMic :: body.trace, by simp [mainRun, tryFinally]⟩

/-- Witness for C9: a body that raises mid-cycle still produces a trace
ending in stop, close, terminate. -/
theorem main_releases_audio_witness :
    (mainRun (Except.ok ())
        { trace := [], outcome := (Except.error () : Except Unit Unit) }).trace =
      AudioEv.openMic ::
        ([] : List AudioEv) ++ mainFinally ∧
    mainFinally <:+
      (mainRun (Except.ok ())
        { trace := [], outcome := (Except.error () : Except Unit Unit) }).trace ∧
    (mainRun (Except.ok ())
        { trace := [], outcome := (Except.error () : Except Unit Unit) }).outcome =
      (Except.error () : Except Unit Unit).mapError Sum.inr :=
  main_releases_audio (Except.ok ())
    { trace := [], outcome := (Except.error () : Except Unit Unit) } rfl

end Specgram
